import Mathlib

/-!
Formal model of the yrs-kvstore persistence layer (src/yrs-kvstore/src/lib.rs):
a document store mapped onto an ordered key-value backend.  The backend is the
sorted association list `Store` below, whose primitive operations follow the
`KVStore` trait contract (get / upsert / remove / remove_range / iter_range /
peek_back over byte-lexicographically ordered keys).  The CRDT engine (yrs) is
an external collaborator per the spec; it is modelled freely: a document state
is the list of update payloads applied to it, in application order.
-/

namespace YrsKv

/-- Byte strings (keys, values, names, payloads) modelled as lists of naturals;
keys written by the layer only contain values below 256. -/
abbrev Bytes := List Nat

/-- Strict byte-lexicographic order on keys: the ordering the `KVStore` contract
requires of every backend (a proper prefix sorts before its extensions). -/
def bLt : Bytes → Bytes → Bool
  | _, [] => false
  | [], _ :: _ => true
  | x :: xs, y :: ys => if x < y then true else if y < x then false else bLt xs ys

/-- Reflexive byte-lexicographic order. -/
def bLe (a b : Bytes) : Bool := !(bLt b a)

theorem bLt_irrefl (a : Bytes) : bLt a a = false := by
  induction a with
  | nil => rfl
  | cons x xs ih => simp [bLt, ih]

theorem eq_of_bLt_false : ∀ {a b : Bytes}, bLt a b = false → bLt b a = false → a = b
  | [], [], _, _ => rfl
  | [], _ :: _, h1, _ => by simp [bLt] at h1
  | _ :: _, [], _, h2 => by simp [bLt] at h2
  | x :: xs, y :: ys, h1, h2 => by
    simp only [bLt] at h1 h2
    by_cases hxy : x < y
    · simp [hxy] at h1
    · by_cases hyx : y < x
      · simp [hyx] at h2
      · have hx : x = y := Nat.le_antisymm (Nat.not_lt.mp hyx) (Nat.not_lt.mp hxy)
        subst hx
        simp only [Nat.lt_irrefl, if_false] at h1 h2
        rw [eq_of_bLt_false h1 h2]

theorem bLt_trans : ∀ {a b c : Bytes}, bLt a b = true → bLt b c = true → bLt a c = true
  | _, [], _, h1, _ => by simp [bLt] at h1
  | _, _, [], _, h2 => by simp [bLt] at h2
  | [], _ :: _, _ :: _, _, _ => rfl
  | x :: xs, y :: ys, z :: zs, h1, h2 => by
    simp only [bLt] at h1 h2 ⊢
    by_cases hxy : x < y
    · by_cases hyz : y < z
      · simp [Nat.lt_trans hxy hyz]
      · by_cases hzy : z < y
        · simp [hyz, hzy] at h2
        · have : y = z := Nat.le_antisymm (Nat.not_lt.mp hzy) (Nat.not_lt.mp hyz)
          subst this
          simp [hxy]
    · by_cases hyx : y < x
      · simp [hxy, hyx] at h1
      · have hx : x = y := Nat.le_antisymm (Nat.not_lt.mp hyx) (Nat.not_lt.mp hxy)
        subst hx
        simp only [Nat.lt_irrefl, if_false] at h1
        by_cases hyz : x < z
        · simp [hyz]
        · by_cases hzy : z < x
          · simp [hyz, hzy] at h2
          · have : x = z := Nat.le_antisymm (Nat.not_lt.mp hzy) (Nat.not_lt.mp hyz)
            subst this
            simp only [Nat.lt_irrefl, if_false] at h2 ⊢
            exact bLt_trans h1 h2

theorem bLt_asymm {a b : Bytes} (h : bLt a b = true) : bLt b a = false := by
  by_contra hc
  have hba : bLt b a = true := by
    cases hv : bLt b a
    · exact (hc hv).elim
    · rfl
  have := bLt_trans h hba
  rw [bLt_irrefl] at this
  exact Bool.false_ne_true this

theorem bLt_total {a b : Bytes} (h : bLt a b = false) : bLt b a = true ∨ a = b := by
  cases hv : bLt b a
  · exact Or.inr (eq_of_bLt_false h hv)
  · exact Or.inl rfl

theorem bLt_append (p x y : Bytes) : bLt (p ++ x) (p ++ y) = bLt x y := by
  induction p with
  | nil => rfl
  | cons a q ih => simp [bLt, ih]

theorem bLt_append_ne :
    ∀ {p q : Bytes}, p.length = q.length → p ≠ q →
      ∀ x y, bLt (p ++ x) (q ++ y) = bLt p q
  | [], [], _, hne, _, _ => absurd rfl hne
  | [], _ :: _, hl, _, _, _ => by simp at hl
  | _ :: _, [], hl, _, _, _ => by simp at hl
  | a :: p, b :: q, hl, hne, x, y => by
    simp only [List.cons_append, bLt]
    by_cases hab : a < b
    · simp [hab]
    · by_cases hba : b < a
      · simp [hab, hba]
      · have : a = b := Nat.le_antisymm (Nat.not_lt.mp hba) (Nat.not_lt.mp hab)
        subst this
        simp only [Nat.lt_irrefl, if_false]
        have hpq : p ≠ q := fun h => hne (by rw [h])
        have hl' : p.length = q.length := by simpa using hl
        exact bLt_append_ne hl' hpq x y

/-! ## The ordered key-value backend (`KVStore` trait contract, lib.rs lines 16-49) -/

/-- Backend state: an association list of (key, value) entries, kept strictly
ascending by `bLt` (all stores reachable from the empty store through the
operations below are sorted). -/
abbrev Store := List (Bytes × Bytes)

/-- `KVStore::get`: the value stored under a key, if any. -/
def storeGet : Store → Bytes → Option Bytes
  | [], _ => none
  | e :: t, k => if e.1 = k then some e.2 else storeGet t k

/-- `KVStore::upsert`: insert or replace, keeping the list sorted. -/
def upsert (k v : Bytes) : Store → Store
  | [] => [(k, v)]
  | e :: t =>
    if bLt k e.1 then (k, v) :: e :: t
    else if k = e.1 then (k, v) :: t
    else e :: upsert k v t

/-- Keep exactly the entries whose key satisfies `q`. -/
def filterKeys (q : Bytes → Bool) : Store → Store
  | [] => []
  | e :: t => if q e.1 then e :: filterKeys q t else filterKeys q t

/-- `KVStore::remove`: delete the entry with the given key, if present. -/
def removeKey (k : Bytes) (s : Store) : Store :=
  filterKeys (fun j => !(decide (j = k))) s

/-- Membership of a key in the inclusive range `lo..=hi`. -/
def inRange (lo hi k : Bytes) : Bool := bLe lo k && bLe k hi

/-- `KVStore::remove_range`: delete all entries with `lo <= key <= hi`. -/
def removeRange (lo hi : Bytes) (s : Store) : Store :=
  filterKeys (fun k => !(inRange lo hi k)) s

/-- `KVStore::iter_range`: the entries with `lo <= key <= hi`, in store order
(ascending for a sorted store). -/
def iterRange (lo hi : Bytes) (s : Store) : Store :=
  filterKeys (fun k => inRange lo hi k) s

/-- `KVStore::peek_back`: the entry with the greatest key at or before the probe
key (for a sorted store this is the last entry among those `<=` the probe). -/
def peekBack (k : Bytes) (s : Store) : Option (Bytes × Bytes) :=
  (filterKeys (fun j => bLe j k) s).getLast?

/-- A store whose entries are strictly ascending by key. -/
def SortedStore (s : Store) : Prop :=
  List.Pairwise (fun a b => bLt a.1 b.1 = true) s

instance (s : Store) : Decidable (SortedStore s) :=
  inferInstanceAs (Decidable (List.Pairwise _ s))

theorem storeGet_upsert (s : Store) (k v k' : Bytes) :
    storeGet (upsert k v s) k' = if k' = k then some v else storeGet s k' := by
  induction s with
  | nil =>
    by_cases h : k' = k
    · simp [upsert, storeGet, h]
    · have h2 : ¬(k = k') := fun hh => h hh.symm
      simp [upsert, storeGet, h, h2]
  | cons e t ih =>
    simp only [upsert]
    by_cases h1 : bLt k e.1 = true
    · simp only [h1, if_true]
      by_cases h : k' = k
      · simp [storeGet, h]
      · have h2 : ¬(k = k') := fun hh => h hh.symm
        simp [storeGet, h, h2]
    · simp only [h1, Bool.false_eq_true, if_false]
      by_cases h2 : k = e.1
      · simp only [h2, if_true]
        by_cases h : k' = e.1
        · have hk : k' = k := by rw [h, h2]
          simp [storeGet, h2, h, hk]
        · have hk : ¬(k' = k) := fun hh => h (by rw [hh, h2])
          have hk2 : ¬(e.1 = k') := fun hh => h hh.symm
          simp [storeGet, h2, hk, hk2, h]
      · simp only [h2, if_false]
        by_cases h : e.1 = k'
        · have hne : ¬(k' = k) := fun hh => h2 (by rw [← hh, h])
          simp [storeGet, h, hne]
        · simp [storeGet, h, ih]

theorem storeGet_filterKeys (q : Bytes → Bool) (s : Store) (k : Bytes) :
    storeGet (filterKeys q s) k = if q k then storeGet s k else none := by
  induction s with
  | nil => cases hq : q k <;> simp [filterKeys, storeGet, hq]
  | cons e t ih =>
    simp only [filterKeys]
    by_cases he : e.1 = k
    · subst he
      cases hq : q e.1 <;> simp [storeGet, hq, ih]
    · cases hq : q e.1 <;> simp [storeGet, he, hq, ih]

theorem mem_filterKeys_iff (q : Bytes → Bool) (s : Store) (e : Bytes × Bytes) :
    e ∈ filterKeys q s ↔ e ∈ s ∧ q e.1 = true := by
  induction s with
  | nil => simp [filterKeys]
  | cons a t ih =>
    simp only [filterKeys]
    by_cases hq : q a.1 = true
    · simp only [hq, if_true, List.mem_cons, ih]
      constructor
      · rintro (h | ⟨h1, h2⟩)
        · exact ⟨Or.inl h, h ▸ hq⟩
        · exact ⟨Or.inr h1, h2⟩
      · rintro ⟨h | h, h2⟩
        · exact Or.inl h
        · exact Or.inr ⟨h, h2⟩
    · simp only [Bool.not_eq_true] at hq
      simp only [hq, Bool.false_eq_true, if_false, ih, List.mem_cons]
      constructor
      · rintro ⟨h1, h2⟩
        exact ⟨Or.inr h1, h2⟩
      · rintro ⟨h | h, h2⟩
        · rw [h] at h2
          rw [hq] at h2
          exact absurd h2 Bool.false_ne_true
        · exact ⟨h, h2⟩

theorem filterKeys_filterKeys (q r : Bytes → Bool) (s : Store) :
    filterKeys q (filterKeys r s) = filterKeys (fun k => r k && q k) s := by
  induction s with
  | nil => rfl
  | cons e t ih =>
    by_cases hr : r e.1 = true
    · by_cases hq : q e.1 = true
      · simp [filterKeys, hr, hq, ih]
      · have hq' : q e.1 = false := by simpa using hq
        simp [filterKeys, hr, hq', ih]
    · have hr' : r e.1 = false := by simpa using hr
      simp [filterKeys, hr', ih]

theorem filterKeys_congr {q r : Bytes → Bool} {s : Store}
    (h : ∀ e ∈ s, q e.1 = r e.1) : filterKeys q s = filterKeys r s := by
  induction s with
  | nil => rfl
  | cons e t ih =>
    have he := h e (List.mem_cons_self e t)
    simp only [filterKeys, he]
    rw [ih fun a ha => h a (List.mem_cons_of_mem e ha)]

theorem pairwise_filterKeys {R : Bytes × Bytes → Bytes × Bytes → Prop}
    (q : Bytes → Bool) {s : Store} (h : List.Pairwise R s) :
    List.Pairwise R (filterKeys q s) := by
  induction s with
  | nil => exact List.Pairwise.nil
  | cons e t ih =>
    rcases h with _ | ⟨ha, hp⟩
    by_cases hq : q e.1 = true
    · simp only [filterKeys, hq, if_true]
      refine List.Pairwise.cons ?_ (ih hp)
      intro b hb
      exact ha b ((mem_filterKeys_iff q t b).mp hb).1
    · simp only [Bool.not_eq_true] at hq
      simp only [filterKeys, hq, Bool.false_eq_true, if_false]
      exact ih hp

theorem mem_upsert {b : Bytes × Bytes} (k v : Bytes) :
    ∀ {s : Store}, b ∈ upsert k v s → b = (k, v) ∨ b ∈ s
  | [], hb => by
    simp only [upsert, List.mem_singleton] at hb
    exact Or.inl hb
  | e :: t, hb => by
    simp only [upsert] at hb
    by_cases h1 : bLt k e.1 = true
    · rw [if_pos h1] at hb
      rcases List.mem_cons.mp hb with hb | hb
      · exact Or.inl hb
      · exact Or.inr hb
    · rw [if_neg h1] at hb
      by_cases h2 : k = e.1
      · rw [if_pos h2] at hb
        rcases List.mem_cons.mp hb with hb | hb
        · exact Or.inl hb
        · exact Or.inr (List.mem_cons.mpr (Or.inr hb))
      · rw [if_neg h2] at hb
        rcases List.mem_cons.mp hb with hb | hb
        · exact Or.inr (List.mem_cons.mpr (Or.inl hb))
        · rcases mem_upsert k v hb with hx | hx
          · exact Or.inl hx
          · exact Or.inr (List.mem_cons.mpr (Or.inr hx))

theorem sortedStore_upsert {s : Store} (k v : Bytes) (h : SortedStore s) :
    SortedStore (upsert k v s) := by
  induction s with
  | nil => exact List.pairwise_singleton _ _
  | cons e t ih =>
    rcases h with _ | ⟨ha, hp⟩
    simp only [upsert]
    by_cases h1 : bLt k e.1 = true
    · simp only [h1, if_true]
      refine List.Pairwise.cons ?_ (List.Pairwise.cons ha hp)
      intro b hb
      rcases List.mem_cons.mp hb with hb | hb
      · rw [hb]; exact h1
      · exact bLt_trans h1 (ha b hb)
    · simp only [h1, Bool.false_eq_true, if_false]
      by_cases h2 : k = e.1
      · simp only [h2, if_true]
        refine List.Pairwise.cons ?_ hp
        intro b hb
        exact ha b hb
      · simp only [h2, if_false]
        refine List.Pairwise.cons ?_ (ih hp)
        intro b hb
        rcases mem_upsert k v hb with hb' | hb'
        · rw [hb']
          have h1' : bLt k e.1 = false := by simpa using h1
          rcases bLt_total h1' with hx | hx
          · exact hx
          · exact absurd hx h2
        · exact ha b hb'

/-! ## Key-space codec

The repository's `keys` module is not under src/; the definitions below are
modelled from the spec (section 4.2) together with the key patterns recorded in
the lib.rs source comments: `00{doc_name:n}0` for OID keys, `01{oid:4}0` for the
document snapshot key, `01{oid:4}1{clock:4}0` for update keys, a 7-byte prefix
plus terminator for metadata keys, and the document region bounds
`[0,1,oid,0]..[0,1,oid,255]`. -/

/-- Big-endian 4-byte encoding of a u32 owner id (or clock). -/
def beBytes4 (n : Nat) : Bytes :=
  [n / 2 ^ 24 % 256, n / 2 ^ 16 % 256, n / 2 ^ 8 % 256, n % 256]

/-- Big-endian value of a byte string. -/
def beVal (b : Bytes) : Nat := b.foldl (fun a x => a * 256 + x) 0

/-- Modelled from the spec: OID key pattern `00{doc_name:n}0` — version byte,
OID keyspace byte, the name, a terminator. -/
def key_oid (name : Bytes) : Bytes := 0 :: 0 :: (name ++ [0])

/-- Modelled from the spec: the common root `01{oid:4}` of every key scoped
under an owner id. -/
def docRoot (oid : Nat) : Bytes := 0 :: 1 :: beBytes4 oid

/-- Modelled from the spec: document snapshot key pattern `01{oid:4}0`. -/
def key_doc (oid : Nat) : Bytes := docRoot oid ++ [0]

/-- Modelled from the spec: lower bound `[0,1,oid,0]` of a document's scoped
region (the snapshot key itself). -/
def key_doc_start (oid : Nat) : Bytes := docRoot oid ++ [0]

/-- Modelled from the spec: upper bound `[0,1,oid,255]` of a document's scoped
region. -/
def key_doc_end (oid : Nat) : Bytes := docRoot oid ++ [255]

/-- Modelled from the spec: update (log entry) key pattern `01{oid:4}1{clock:4}0`
per the source comment in push_update. -/
def key_update (oid clock : Nat) : Bytes := docRoot oid ++ 1 :: (beBytes4 clock ++ [0])

/-- Modelled from the spec: state vector key — a document sub-key with a tag
distinct from the snapshot byte and the update tag. -/
def key_state_vector (oid : Nat) : Bytes := docRoot oid ++ [2]

/-- Modelled from the spec: metadata key — a 7-byte prefix (version, keyspace,
oid, tag) followed by the metadata key and a terminator, matching the
`key[7..len-1]` stripping in `MetadataIter`. -/
def key_meta (oid : Nat) (mk : Bytes) : Bytes := docRoot oid ++ 3 :: (mk ++ [0])

/-- Modelled from the spec: lower bound of the metadata region. -/
def key_meta_start (oid : Nat) : Bytes := docRoot oid ++ [3]

/-- Modelled from the spec: upper bound of the metadata region (the next tag,
so that every metadata key falls strictly inside the bound). -/
def key_meta_end (oid : Nat) : Bytes := docRoot oid ++ [4]

/-- Modelled from the spec: recover the document name embedded in an OID key
(strip the 2-byte prefix and the terminator), as `DocsNameIter` does. -/
def doc_oid_name (k : Bytes) : Bytes := (k.drop 2).dropLast

/-! ## The CRDT engine model

The yrs engine is out of scope per the spec (an external collaborator that
decodes/applies binary deltas).  It is modelled freely: a document state is the
list of update payloads applied to it in order, `apply_update` appends, decoding
always succeeds, and the two encoders are arbitrary but fixed functions of the
state. -/

/-- A document state: the updates applied to it, in application order. -/
abbrev DocState := List Bytes

/-- `TransactionMut::apply_update`: record the payload. -/
def applyUpdate (d : DocState) (u : Bytes) : DocState := d ++ [u]

/-- An injective-by-construction byte encoding of a list of payloads, standing
in for the engine's opaque encodings. -/
def encodeList : List Bytes → Bytes
  | [] => []
  | b :: t => b.length :: (b ++ encodeList t)

/-- `encode_state_as_update_v1` on the free engine. -/
def encodeStateAsUpdate (d : DocState) : Bytes := encodeList d

/-- `state_vector().encode_v1()` on the free engine. -/
def encodeStateVector (d : DocState) : Bytes := 0 :: encodeList d

/-! ## DocOps (lib.rs): the operations under verification

Fallible operations return `Option`: `none` models an aborted operation (a
`unwrap` panic on a malformed stored value or an out-of-bounds slice).  Machine
integers are naturals reduced mod `2^32` where the source uses u32 arithmetic. -/

/-- The `OID::from_be_bytes(value.try_into().unwrap())` decode: aborts unless
the stored value is exactly 4 bytes (lib.rs lines 321-322). -/
def decodeOid (v : Bytes) : Option Nat :=
  if v.length = 4 then some (beVal v) else none

/-- `get_oid` (lib.rs lines 314-327): look up the owner id of a name. -/
def get_oid (s : Store) (name : Bytes) : Option (Option Nat) :=
  match storeGet s (key_oid name) with
  | none => some none
  | some v =>
    match decodeOid v with
    | none => none
    | some oid => some (some oid)

/-- The `last_oid` computation of `get_or_create_oid` (lib.rs lines 345-351):
peek back from `[V1, KEYSPACE_DOC] = [0,1]` and decode the found entry's value
(0 when the store holds no key at or below the probe). -/
def last_alloc_oid (s : Store) : Option Nat :=
  match peekBack [0, 1] s with
  | some e => decodeOid e.2
  | none => some 0

/-- `get_or_create_oid` (lib.rs lines 329-357): return the existing id, or
allocate `last_oid + 1` and persist the mapping. -/
def get_or_create_oid (s : Store) (name : Bytes) : Option (Nat × Store) :=
  match get_oid s name with
  | none => none
  | some (some oid) => some (oid, s)
  | some none =>
    match last_alloc_oid s with
    | none => none
    | some last =>
      let newOid := (last + 1) % 2 ^ 32
      some (newOid, upsert (key_oid name) (beBytes4 newOid) s)

/-- `push_update` (lib.rs lines 180-197): allocate the id if needed, peek back
at the update region's upper bound, take bytes `[len-5 .. len-1]` of whatever
key was found as the previous clock (aborting if the key is shorter than 5
bytes, where the slice panics), and append at `clock + 1`. -/
def push_update (s : Store) (name upd : Bytes) : Option (Nat × Store) :=
  match get_or_create_oid s name with
  | none => none
  | some (oid, s1) =>
    let lastClock : Option Nat :=
      match peekBack (key_update oid (2 ^ 32 - 1)) s1 with
      | some e =>
        if 5 ≤ e.1.length then some (beVal ((e.1.drop (e.1.length - 5)).take 4))
        else none
      | none => some 0
    match lastClock with
    | none => none
    | some last =>
      let clock := (last + 1) % 2 ^ 32
      some (clock, upsert (key_update oid clock) upd s1)

/-- Inner `load_doc` (lib.rs lines 359-392): apply the snapshot if present, then
every entry of the update region in store order; the returned code is the u32
update count with bit 31 set when the snapshot was applied. -/
def load_doc_inner (s : Store) (oid : Nat) (d : DocState) : DocState × Nat :=
  let snap := storeGet s (key_doc oid)
  let d1 := match snap with
    | some bytes => applyUpdate d bytes
    | none => d
  let entries := iterRange (key_update oid 0) (key_update oid (2 ^ 32 - 1)) s
  let d2 := entries.foldl (fun acc e => applyUpdate acc e.2) d1
  let cnt := entries.length % 2 ^ 32
  (d2, if snap.isSome then cnt ||| 2 ^ 31 else cnt)

/-- `DocOps::load_doc` (lib.rs lines 98-109): resolve the id, replay, report
whether anything was found (`loaded != 0`). -/
def load_doc (s : Store) (name : Bytes) (d : DocState) : Option (Bool × DocState) :=
  match get_oid s name with
  | none => none
  | some none => some (false, d)
  | some (some oid) =>
    let r := load_doc_inner s oid d
    some (r.2 != 0, r.1)

/-- `insert_inner_v1` (lib.rs lines 429-443): upsert the snapshot and state
vector keys. -/
def insert_inner (oid : Nat) (ds sv : Bytes) (s : Store) : Store :=
  upsert (key_state_vector oid) sv (upsert (key_doc oid) ds s)

/-- `DocOps::insert_doc_raw_v1` (lib.rs lines 82-91). -/
def insert_doc_raw (s : Store) (name ds sv : Bytes) : Option Store :=
  match get_or_create_oid s name with
  | none => none
  | some (oid, s1) => some (insert_inner oid ds sv s1)

/-- `delete_updates` (lib.rs lines 394-402): remove the whole update region. -/
def delete_updates (oid : Nat) (s : Store) : Store :=
  removeRange (key_update oid 0) (key_update oid (2 ^ 32 - 1)) s

/-- Inner `flush_doc` (lib.rs lines 404-427): replay into a fresh document; if
the masked count `found & !(1 << 31)` is non-zero, persist the re-encoded state
and vector, prune the log, and return the merged document. -/
def flush_doc_inner (s : Store) (oid : Nat) : Option DocState × Store :=
  let r := load_doc_inner s oid []
  if (r.2 &&& (2 ^ 31 - 1)) != 0 then
    let s1 := insert_inner oid (encodeStateAsUpdate r.1) (encodeStateVector r.1) s
    (some r.1, delete_updates oid s1)
  else (none, s)

/-- `DocOps::flush_doc_with` (lib.rs lines 127-138). -/
def flush_doc (s : Store) (name : Bytes) : Option (Option DocState × Store) :=
  match get_oid s name with
  | none => none
  | some none => some (none, s)
  | some (some oid) => some (flush_doc_inner s oid)

/-- `DocOps::get_state_vector` (lib.rs lines 149-170): the stored vector (if
any) and an up-to-date flag that is true exactly when the update region is
empty. -/
def get_state_vector (s : Store) (name : Bytes) : Option (Option Bytes × Bool) :=
  match get_oid s name with
  | none => none
  | some none => some (none, true)
  | some (some oid) =>
    let sv := storeGet s (key_state_vector oid)
    let upToDate := (iterRange (key_update oid 0) (key_update oid (2 ^ 32 - 1)) s).isEmpty
    some (sv, upToDate)

/-- `DocOps::clear_doc` (lib.rs lines 223-241): decode the id (aborting on a
malformed value), remove the allocation key, then iterate the scoped region and
remove every key found (the `key > end` break guard never fires for an iterator
honouring the range bound). -/
def clear_doc (s : Store) (name : Bytes) : Option Store :=
  match storeGet s (key_oid name) with
  | none => some s
  | some v =>
    match decodeOid v with
    | none => none
    | some oid =>
      let s1 := removeKey (key_oid name) s
      let entries := iterRange (key_doc_start oid) (key_doc_end oid) s1
      some (entries.foldl (fun acc e => removeKey e.1 acc) s1)

/-- `DocOps::get_meta` (lib.rs lines 246-257). -/
def get_meta (s : Store) (name mk : Bytes) : Option (Option Bytes) :=
  match get_oid s name with
  | none => none
  | some none => some none
  | some (some oid) => some (storeGet s (key_meta oid mk))

/-- `DocOps::insert_meta` (lib.rs lines 263-273). -/
def insert_meta (s : Store) (name mk meta : Bytes) : Option Store :=
  match get_or_create_oid s name with
  | none => none
  | some (oid, s1) => some (upsert (key_meta oid mk) meta s1)

/-- `DocOps::remove_meta` (lib.rs lines 278-288). -/
def remove_meta (s : Store) (name mk : Bytes) : Option Store :=
  match get_oid s name with
  | none => none
  | some none => some s
  | some (some oid) => some (removeKey (key_meta oid mk) s)

/-- `DocOps::iter_meta` (lib.rs lines 299-311) with the `MetadataIter` decoding
(lib.rs lines 473-488): strip the 7-byte prefix and the terminator. -/
def iter_meta (s : Store) (name : Bytes) : Option (List (Bytes × Bytes)) :=
  match get_oid s name with
  | none => none
  | some none => some []
  | some (some oid) =>
    some ((iterRange (key_meta_start oid) (key_meta_end oid) s).map
      (fun e => ((e.1.drop 7).dropLast, e.2)))

/-- `DocOps::iter_docs` (lib.rs lines 291-296) with the `DocsNameIter` decoding
(lib.rs lines 455-466): scan `[0,0]..[0,1]` and decode each key to its name. -/
def iter_docs (s : Store) : List Bytes :=
  (iterRange [0, 0] [0, 1] s).map (fun e => doc_oid_name e.1)

/-! ## Facts about the key space -/

theorem bLt_oid_doc (x y : Bytes) : bLt (0 :: 0 :: x) (0 :: 1 :: y) = true := rfl

theorem key_update_eq (oid c : Nat) :
    key_update oid c = docRoot oid ++ 1 :: (beBytes4 c ++ [0]) := rfl

theorem key_oid_cons (n : Bytes) : key_oid n = 0 :: 0 :: (n ++ [0]) := rfl

theorem docRoot_cons (oid : Nat) : docRoot oid = 0 :: 1 :: beBytes4 oid := rfl

theorem docRoot_length (oid : Nat) : (docRoot oid).length = 6 := rfl

theorem bLt_oidKey_docKey (n : Bytes) (oid : Nat) (t : Bytes) :
    bLt (key_oid n) (docRoot oid ++ t) = true := by
  rw [key_oid_cons, docRoot_cons, List.cons_append, List.cons_append]
  exact bLt_oid_doc (n ++ [0]) (beBytes4 oid ++ t)

/-- An OID key never falls inside any region bounded by document-scoped keys. -/
theorem inRange_docKeys_oidKey (oid : Nat) (t1 t2 n : Bytes) :
    inRange (docRoot oid ++ t1) (docRoot oid ++ t2) (key_oid n) = false := by
  simp [inRange, bLe, bLt_oidKey_docKey]

/-- The state-vector key lies above the whole update region. -/
theorem inRange_update_sv (oid c1 c2 : Nat) :
    inRange (key_update oid c1) (key_update oid c2) (key_state_vector oid) = false := by
  have h : bLt (key_update oid c2) (key_state_vector oid) = true := by
    rw [key_update_eq]
    show bLt (docRoot oid ++ (1 :: (beBytes4 c2 ++ [0]))) (docRoot oid ++ [2]) = true
    rw [bLt_append]
    rfl
  simp [inRange, bLe, h]

/-- The snapshot key lies below the whole update region. -/
theorem inRange_update_doc (oid c1 c2 : Nat) :
    inRange (key_update oid c1) (key_update oid c2) (key_doc oid) = false := by
  have h : bLt (key_doc oid) (key_update oid c1) = true := by
    rw [key_update_eq]
    show bLt (docRoot oid ++ [0]) (docRoot oid ++ (1 :: (beBytes4 c1 ++ [0]))) = true
    rw [bLt_append]
    rfl
  simp [inRange, bLe, h]

theorem key_doc_ne_sv (oid : Nat) : key_doc oid ≠ key_state_vector oid := by
  intro h
  have := List.append_cancel_left (h : docRoot oid ++ [0] = docRoot oid ++ [2])
  simp at this

theorem key_oid_ne_docKey (n : Bytes) (oid : Nat) (t : Bytes) :
    key_oid n ≠ docRoot oid ++ t := by
  intro h
  rw [key_oid_cons, docRoot_cons, List.cons_append, List.cons_append] at h
  have := (List.cons.injEq _ _ _ _).mp h
  have := (List.cons.injEq _ _ _ _).mp this.2
  exact absurd this.1 (by norm_num)

theorem key_oid_ne_sv (n : Bytes) (oid : Nat) : key_oid n ≠ key_state_vector oid :=
  key_oid_ne_docKey n oid [2]

theorem key_oid_ne_doc (n : Bytes) (oid : Nat) : key_oid n ≠ key_doc oid :=
  key_oid_ne_docKey n oid [0]

theorem key_oid_inj {n m : Bytes} (h : key_oid n = key_oid m) : n = m := by
  rw [key_oid_cons, key_oid_cons] at h
  have h1 := (List.cons.injEq _ _ _ _).mp h
  have h2 := (List.cons.injEq _ _ _ _).mp h1.2
  have h3 := congrArg List.dropLast h2.2
  simpa using h3

theorem doc_oid_name_key_oid (n : Bytes) : doc_oid_name (key_oid n) = n := by
  rw [key_oid_cons]
  show ((0 :: 0 :: (n ++ [0])).drop 2).dropLast = n
  simp [doc_oid_name]

theorem beVal_beBytes4 (n : Nat) (h : n < 2 ^ 32) : beVal (beBytes4 n) = n := by
  simp only [beVal, beBytes4, List.foldl_cons, List.foldl_nil]
  omega

theorem beBytes4_inj {a b : Nat} (ha : a < 2 ^ 32) (hb : b < 2 ^ 32)
    (h : beBytes4 a = beBytes4 b) : a = b := by
  have := congrArg beVal h
  rwa [beVal_beBytes4 a ha, beVal_beBytes4 b hb] at this

theorem docRoot_inj {a b : Nat} (ha : a < 2 ^ 32) (hb : b < 2 ^ 32)
    (h : docRoot a = docRoot b) : a = b := by
  rw [docRoot_cons, docRoot_cons] at h
  have h1 := (List.cons.injEq _ _ _ _).mp h
  have h2 := (List.cons.injEq _ _ _ _).mp h1.2
  exact beBytes4_inj ha hb h2.2

/-- If two regions with equal-length distinct roots both contain `k`, the lower
region's upper bound would have to exceed the higher region's lower bound. -/
theorem region_sep {r r' k : Bytes} (hl : r.length = r'.length) (hrne : r ≠ r')
    (hlt : bLt r r' = true)
    (ha : bLt (r ++ [255]) k = false) (hb : bLt k (r' ++ [0]) = false) : False := by
  have hsep : bLt (r ++ [255]) (r' ++ [0]) = true := by
    rw [bLt_append_ne hl hrne]
    exact hlt
  rcases bLt_total ha with hx | hx
  · have h3 := bLt_trans hx hsep
    rw [h3] at hb
    simp at hb
  · rw [← hx] at hb
    rw [hsep] at hb
    simp at hb

/-- Scoped regions of distinct owner ids are disjoint. -/
theorem region_disjoint {oid oid' : Nat} (hne : docRoot oid ≠ docRoot oid')
    {k : Bytes} (h1 : inRange (key_doc_start oid) (key_doc_end oid) k = true) :
    inRange (key_doc_start oid') (key_doc_end oid') k = false := by
  cases hv : inRange (key_doc_start oid') (key_doc_end oid') k
  · rfl
  · exfalso
    simp only [inRange, bLe, key_doc_start, key_doc_end, Bool.and_eq_true,
      Bool.not_eq_true'] at h1 hv
    obtain ⟨a1, a2⟩ := h1
    obtain ⟨b1, b2⟩ := hv
    have hlen : (docRoot oid).length = (docRoot oid').length := by
      rw [docRoot_length, docRoot_length]
    cases hlt : bLt (docRoot oid) (docRoot oid')
    · rcases bLt_total hlt with hx | hx
      · exact region_sep hlen.symm (Ne.symm hne) hx b2 a1
      · exact hne hx
    · exact region_sep hlen hne hlt a2 b1

/-! ## Bit arithmetic for the `found` code of load_doc -/

theorem and_mask_eq (c : Nat) (h : c < 2 ^ 31) : c &&& (2 ^ 31 - 1) = c := by
  apply Nat.eq_of_testBit_eq
  intro i
  simp only [Nat.testBit_and, Nat.testBit_two_pow_sub_one]
  by_cases hi : i < 31
  · simp [hi]
  · have hc : c.testBit i = false :=
      Nat.testBit_lt_two_pow
        (lt_of_lt_of_le h (Nat.pow_le_pow_right (by norm_num) (Nat.not_lt.mp hi)))
    simp [hc]

theorem or_mask_eq (c : Nat) (h : c < 2 ^ 31) : (c ||| 2 ^ 31) &&& (2 ^ 31 - 1) = c := by
  apply Nat.eq_of_testBit_eq
  intro i
  simp only [Nat.testBit_and, Nat.testBit_or, Nat.testBit_two_pow_sub_one,
    Nat.testBit_two_pow]
  by_cases hi : i < 31
  · have h31 : ¬(31 = i) := by omega
    simp [hi, h31]
  · have hc : c.testBit i = false :=
      Nat.testBit_lt_two_pow
        (lt_of_lt_of_le h (Nat.pow_le_pow_right (by norm_num) (Nat.not_lt.mp hi)))
    simp [hi, hc]

/-! ## Characterisations of the composed operations -/

theorem get_oid_of_storeGet_none {s : Store} {name : Bytes}
    (h : storeGet s (key_oid name) = none) : get_oid s name = some none := by
  simp [get_oid, h]

theorem storeGet_none_of_get_oid {s : Store} {name : Bytes}
    (h : get_oid s name = some none) : storeGet s (key_oid name) = none := by
  unfold get_oid at h
  cases hv : storeGet s (key_oid name) with
  | none => rfl
  | some v =>
    rw [hv] at h
    cases hd : decodeOid v with
    | none => simp [hd] at h
    | some oid => simp [hd] at h

theorem get_oid_eq_of_storeGet {s s' : Store} {name : Bytes}
    (h : storeGet s' (key_oid name) = storeGet s (key_oid name)) :
    get_oid s' name = get_oid s name := by
  unfold get_oid
  rw [h]

theorem get_or_create_cases {s : Store} {name : Bytes} {oid : Nat} {s1 : Store}
    (h : get_or_create_oid s name = some (oid, s1)) :
    (get_oid s name = some (some oid) ∧ s1 = s) ∨
      (storeGet s (key_oid name) = none ∧
        s1 = upsert (key_oid name) (beBytes4 oid) s) := by
  unfold get_or_create_oid at h
  cases hg : get_oid s name with
  | none => rw [hg] at h; simp at h
  | some o =>
    cases o with
    | some oid' =>
      rw [hg] at h
      simp only [Option.some.injEq, Prod.mk.injEq] at h
      obtain ⟨h1, h2⟩ := h
      subst h1
      exact Or.inl ⟨rfl, h2.symm⟩
    | none =>
      rw [hg] at h
      have hn := storeGet_none_of_get_oid hg
      cases hL : last_alloc_oid s with
      | none => rw [hL] at h; simp at h
      | some last =>
        rw [hL] at h
        simp only [Option.some.injEq, Prod.mk.injEq] at h
        obtain ⟨h1, h2⟩ := h
        subst h1
        exact Or.inr ⟨hn, h2.symm⟩

/-- The store produced by a successful flush that found pending updates. -/
def flushedStore (s : Store) (oid : Nat) : Store :=
  delete_updates oid
    (insert_inner oid (encodeStateAsUpdate (load_doc_inner s oid []).1)
      (encodeStateVector (load_doc_inner s oid []).1) s)

theorem load_doc_inner_code (s : Store) (oid : Nat) (d : DocState) :
    (load_doc_inner s oid d).2 =
      (if (storeGet s (key_doc oid)).isSome then
        (iterRange (key_update oid 0) (key_update oid (2 ^ 32 - 1)) s).length % 2 ^ 32
          ||| 2 ^ 31
      else
        (iterRange (key_update oid 0) (key_update oid (2 ^ 32 - 1)) s).length % 2 ^ 32) :=
  rfl

theorem flush_inner_of_empty (s : Store) (oid : Nat)
    (h : iterRange (key_update oid 0) (key_update oid (2 ^ 32 - 1)) s = []) :
    flush_doc_inner s oid = (none, s) := by
  have hcode : ((load_doc_inner s oid []).2 &&& (2 ^ 31 - 1)) = 0 := by
    rw [load_doc_inner_code, h]
    cases hs : (storeGet s (key_doc oid)).isSome
    · rw [if_neg (by simp)]
      simp
    · rw [if_pos rfl]
      simpa using or_mask_eq 0 (by norm_num)
  unfold flush_doc_inner
  rw [if_neg (by rw [hcode]; simp)]

theorem flush_inner_of_nonempty (s : Store) (oid : Nat)
    (hne : iterRange (key_update oid 0) (key_update oid (2 ^ 32 - 1)) s ≠ [])
    (hlen : (iterRange (key_update oid 0) (key_update oid (2 ^ 32 - 1)) s).length
      < 2 ^ 31) :
    flush_doc_inner s oid = (some (load_doc_inner s oid []).1, flushedStore s oid) := by
  have hlz : (iterRange (key_update oid 0) (key_update oid (2 ^ 32 - 1)) s).length ≠ 0 :=
    fun hz => hne (List.length_eq_zero.mp hz)
  have hmod :
      (iterRange (key_update oid 0) (key_update oid (2 ^ 32 - 1)) s).length % 2 ^ 32
        = (iterRange (key_update oid 0) (key_update oid (2 ^ 32 - 1)) s).length :=
    Nat.mod_eq_of_lt (lt_trans hlen (by norm_num))
  have hcode : ((load_doc_inner s oid []).2 &&& (2 ^ 31 - 1)) ≠ 0 := by
    rw [load_doc_inner_code]
    cases hs : (storeGet s (key_doc oid)).isSome
    · rw [if_neg (by simp), hmod, and_mask_eq _ hlen]
      exact hlz
    · rw [if_pos rfl, hmod, or_mask_eq _ hlen]
      exact hlz
  unfold flush_doc_inner
  rw [if_pos (bne_iff_ne.mpr hcode)]
  rfl

theorem storeGet_flushedStore_doc (s : Store) (oid : Nat) :
    storeGet (flushedStore s oid) (key_doc oid)
      = some (encodeStateAsUpdate (load_doc_inner s oid []).1) := by
  unfold flushedStore delete_updates removeRange insert_inner
  rw [storeGet_filterKeys]
  rw [inRange_update_doc]
  simp only [Bool.not_false, if_true]
  rw [storeGet_upsert]
  rw [if_neg (key_doc_ne_sv oid), storeGet_upsert, if_pos rfl]

theorem storeGet_flushedStore_sv (s : Store) (oid : Nat) :
    storeGet (flushedStore s oid) (key_state_vector oid)
      = some (encodeStateVector (load_doc_inner s oid []).1) := by
  unfold flushedStore delete_updates removeRange insert_inner
  rw [storeGet_filterKeys]
  rw [inRange_update_sv]
  simp only [Bool.not_false, if_true]
  rw [storeGet_upsert, if_pos rfl]

theorem storeGet_flushedStore_oidKey (s : Store) (oid : Nat) (n : Bytes) :
    storeGet (flushedStore s oid) (key_oid n) = storeGet s (key_oid n) := by
  unfold flushedStore delete_updates removeRange insert_inner
  rw [storeGet_filterKeys]
  have h1 : inRange (key_update oid 0) (key_update oid (2 ^ 32 - 1)) (key_oid n)
      = false := by
    rw [key_update_eq, key_update_eq]
    exact inRange_docKeys_oidKey oid _ _ n
  rw [h1]
  simp only [Bool.not_false, if_true]
  rw [storeGet_upsert, if_neg (key_oid_ne_sv n oid),
    storeGet_upsert, if_neg (key_oid_ne_doc n oid)]

theorem iterRange_delete_updates (oid : Nat) (x : Store) :
    iterRange (key_update oid 0) (key_update oid (2 ^ 32 - 1))
      (delete_updates oid x) = [] := by
  unfold delete_updates removeRange iterRange
  rw [filterKeys_filterKeys]
  have h : ∀ e ∈ x,
      (!(inRange (key_update oid 0) (key_update oid (2 ^ 32 - 1)) e.1)
        && inRange (key_update oid 0) (key_update oid (2 ^ 32 - 1)) e.1) = false := by
    intro e he
    exact Bool.not_and_self _
  induction x with
  | nil => rfl
  | cons e t ih =>
    simp only [filterKeys, h e (List.mem_cons_self e t), Bool.false_eq_true, if_false]
    exact ih (fun a ha => h a (List.mem_cons_of_mem e ha))

theorem filterKeys_true (s : Store) : filterKeys (fun _ => true) s = s := by
  induction s with
  | nil => rfl
  | cons e t ih => simp [filterKeys, ih]

theorem foldl_removeKey_eq (L : List (Bytes × Bytes)) (s0 : Store) :
    L.foldl (fun acc e => removeKey e.1 acc) s0
      = filterKeys (fun k => !(L.any (fun l => decide (l.1 = k)))) s0 := by
  induction L generalizing s0 with
  | nil =>
    simp only [List.foldl_nil]
    exact (filterKeys_true s0).symm
  | cons e L ih =>
    simp only [List.foldl_cons]
    rw [ih (removeKey e.1 s0)]
    unfold removeKey
    rw [filterKeys_filterKeys]
    apply filterKeys_congr
    intro a _
    simp [List.any_cons, Bool.not_or, eq_comm, Bool.and_comm]

/-- The store produced by a successful clear. -/
def clearedStore (s : Store) (name : Bytes) (oid : Nat) : Store :=
  removeRange (key_doc_start oid) (key_doc_end oid) (removeKey (key_oid name) s)

theorem clear_doc_eq (s : Store) (name v : Bytes)
    (h : storeGet s (key_oid name) = some v) (h4 : v.length = 4) :
    clear_doc s name = some (clearedStore s name (beVal v)) := by
  unfold clear_doc
  rw [h]
  simp only [decodeOid, h4, if_true]
  congr 1
  rw [foldl_removeKey_eq]
  unfold clearedStore removeRange
  apply filterKeys_congr
  intro e he
  have hiff : (iterRange (key_doc_start (beVal v)) (key_doc_end (beVal v))
      (removeKey (key_oid name) s)).any (fun l => decide (l.1 = e.1))
        = inRange (key_doc_start (beVal v)) (key_doc_end (beVal v)) e.1 := by
    cases hr : inRange (key_doc_start (beVal v)) (key_doc_end (beVal v)) e.1
    · rw [List.any_eq_false]
      intro l hl
      have hm := (mem_filterKeys_iff _ _ l).mp hl
      simp only [decide_eq_true_eq]
      intro hle
      rw [hle] at hm
      rw [hm.2] at hr
      simp at hr
    · rw [List.any_eq_true]
      refine ⟨e, (mem_filterKeys_iff _ _ e).mpr ⟨he, hr⟩, by simp⟩
  rw [hiff]

/-! ## Claim theorems -/

/-- C1: the claim says owner ids allocated for distinct fresh names are pairwise
distinct and strictly increasing in allocation order regardless of the
lexicographic order of the names.  The code evaluates otherwise: allocating
ids for the names [98], [97], [99] (in that order, from the empty store, via
insert-meta) assigns 1, 2 and again 2 — `get_or_create_oid` peeks back from
[0,1] and decodes the value of the lexicographically greatest name's key, not
the greatest allocated id, so the name [99] receives the id of the name [98]
plus one, colliding with the id of [97]. -/
theorem C1_oid_collision :
    (do
      let s1 ← insert_meta [] [98] [5] [6]
      let s2 ← insert_meta s1 [97] [5] [6]
      let s3 ← insert_meta s2 [99] [5] [6]
      let a ← get_oid s3 [97]
      let b ← get_oid s3 [98]
      let c ← get_oid s3 [99]
      pure (a, b, c)) = some (some 2, some 1, some 2) := by decide

/-- C2: the claim says push-update clocks restart at 1 on a brand-new document
and after a pruning flush.  The code evaluates otherwise: the very first
push-update on the name [97,97] in an empty store returns clock 24930 (the
peek-back at the update region's upper bound finds the freshly written OID key
[0,0,97,97,0] and reads its trailing bytes [0,0,97,97] as the previous clock),
and the first push after a pruning flush returns 2, not 1 (the peek-back finds
the snapshot key and reads the owner id bytes as the previous clock). -/
theorem C2_clock_eval :
    ((push_update [] [97, 97] [9]).map Prod.fst = some 24930) ∧
    (do
      let r1 ← push_update [] [97, 97] [9]
      let f ← flush_doc r1.2 [97, 97]
      let r2 ← push_update f.2 [97, 97] [10]
      pure (r1.1, r2.1)) = some (24930, 2) := by decide

/-- C3: the claim says load-document replays, for any name, exactly the deltas
pushed to that name, in push order.  The code evaluates otherwise: pushing [1]
to name [98,98], [2] to name [97,97] and [3] to name [99,99] (each a distinct
fresh name) makes load-document on [97,97] replay [2] and then [3], because the
allocator bug (C1) gives the names [97,97] and [99,99] the same owner id, so
the update pushed to [99,99] lands in [97,97]'s log region. -/
theorem C3_load_foreign_update :
    (do
      let r1 ← push_update [] [98, 98] [1]
      let r2 ← push_update r1.2 [97, 97] [2]
      let r3 ← push_update r2.2 [99, 99] [3]
      load_doc r3.2 [97, 97] []) = some (true, [[2], [3]]) := by decide

/-- C6 counterexample: the claim says clear-document leaves every other
document's id mapping and scoped keys unchanged.  After allocating ids for
[98], [97], [99] (ids 1, 2, 2 by the C1 collision) and storing metadata [9]
mapped to [10] for the name [99], clearing [97] also deletes [99]'s metadata:
get-meta([99],[9]) returns the value before the clear and nothing after it. -/
theorem C6_clear_shared_oid :
    (do
      let s1 ← insert_meta [] [98] [5] [6]
      let s2 ← insert_meta s1 [97] [7] [8]
      let s3 ← insert_meta s2 [99] [9] [10]
      let g1 ← get_meta s3 [99] [9]
      let s4 ← clear_doc s3 [97]
      let g2 ← get_meta s4 [99] [9]
      pure (g1, g2)) = some (some [10], none) := by decide

/-- C8 counterexample: the claim says insert-document-raw leaves all keys of
other documents untouched.  Inserting documents for [98], [97], [99] in order
(ids 1, 2, 2 by the C1 collision) makes the third insert overwrite the snapshot
key of owner id 2, which holds [97]'s snapshot: the stored snapshot under
`key_doc 2` changes from [20] ([97]'s) to [30] ([99]'s). -/
theorem C8_insert_overwrites_other :
    (do
      let s1 ← insert_doc_raw [] [98] [10] [11]
      let s2 ← insert_doc_raw s1 [97] [20] [21]
      let s3 ← insert_doc_raw s2 [99] [30] [31]
      pure (get_oid s2 [97], storeGet s2 (key_doc 2),
        get_oid s3 [99], storeGet s3 (key_doc 2)))
      = some (some (some 2), some [20], some (some 2), some [30]) := by decide

/-- C9 counterexample: the claim says that when every stored owner-id value is
exactly 4 big-endian bytes the operations are total.  The store reached by
insert-meta then remove-meta on name [97] holds exactly one entry, the OID key
with a 4-byte value, yet push-update on [97] aborts: the peek-back at the
update region's bound finds the 4-byte OID key and the `[len-5..len-1]` clock
slice is out of bounds. -/
theorem C9_push_aborts_on_wf_store :
    (do
      let s1 ← insert_meta ([] : Store) [97] [5] [6]
      remove_meta s1 [97] [5]) = some [([0, 0, 97, 0], [0, 0, 0, 1])] ∧
    List.all [(([0, 0, 97, 0] : Bytes), ([0, 0, 0, 1] : Bytes))]
      (fun e => e.2.length == 4) = true ∧
    push_update [([0, 0, 97, 0], [0, 0, 0, 1])] [97] [9] = none := by decide

/-- C7: get-clock-vector on a name with no owner id returns (none, true); on a
name with an owner id it returns the stored vector (whatever it is, or none)
together with an up-to-date flag that is false exactly when the update region
holds at least one pending entry. -/
theorem C7_state_vector_flag (s : Store) (name : Bytes) :
    (get_oid s name = some none → get_state_vector s name = some (none, true)) ∧
    (∀ oid, get_oid s name = some (some oid) →
      get_state_vector s name
        = some (storeGet s (key_state_vector oid),
            (iterRange (key_update oid 0) (key_update oid (2 ^ 32 - 1)) s).isEmpty) ∧
      ((iterRange (key_update oid 0) (key_update oid (2 ^ 32 - 1)) s).isEmpty = false
        ↔ iterRange (key_update oid 0) (key_update oid (2 ^ 32 - 1)) s ≠ [])) := by
  constructor
  · intro h
    unfold get_state_vector
    rw [h]
  · intro oid h
    constructor
    · unfold get_state_vector
      rw [h]
    · rw [Bool.eq_false_iff]
      constructor
      · intro hne hnil
        exact hne (by rw [hnil]; rfl)
      · intro hne hic
        exact hne (List.isEmpty_iff.mp hic)

/-- The store holding one document (owner id 1) with one pending log entry,
reached by an insert followed by a push. -/
def c7s : Store := ((push_update ((insert_doc_raw [] [97] [20] [21]).getD [])
  [97] [9]).map Prod.snd).getD []

/-- C7 witness: the theorem applied to a store with a pending entry. -/
theorem C7_witness :
    get_state_vector c7s [97]
        = some (storeGet c7s (key_state_vector 1),
            (iterRange (key_update 1 0) (key_update 1 (2 ^ 32 - 1)) c7s).isEmpty) ∧
      ((iterRange (key_update 1 0) (key_update 1 (2 ^ 32 - 1)) c7s).isEmpty = false
        ↔ iterRange (key_update 1 0) (key_update 1 (2 ^ 32 - 1)) c7s ≠ []) :=
  (C7_state_vector_flag c7s [97]).2 1 (by decide)

/-- C10: on a name with no owner id the read-style operations answer with their
trivial results, the only one returning a store returns it unchanged, and none
of them allocates an owner id. -/
theorem C10_miss_reads (s : Store) (name mk : Bytes) (d : DocState)
    (h : get_oid s name = some none) :
    get_meta s name mk = some none ∧
    remove_meta s name mk = some s ∧
    iter_meta s name = some [] ∧
    load_doc s name d = some (false, d) ∧
    get_state_vector s name = some (none, true) := by
  refine ⟨?_, ?_, ?_, ?_, ?_⟩
  · unfold get_meta
    rw [h]
  · unfold remove_meta
    rw [h]
  · unfold iter_meta
    rw [h]
  · unfold load_doc
    rw [h]
  · unfold get_state_vector
    rw [h]

/-- C10 witness: the theorem applied to the empty store and the name [5]. -/
theorem C10_witness :
    get_oid ([] : Store) [5] = some none ∧
    (get_meta ([] : Store) [5] [7] = some none ∧
      remove_meta ([] : Store) [5] [7] = some [] ∧
      iter_meta ([] : Store) [5] = some [] ∧
      load_doc ([] : Store) [5] [] = some (false, []) ∧
      get_state_vector ([] : Store) [5] = some (none, true)) :=
  ⟨by decide, C10_miss_reads [] [5] [7] [] (by decide)⟩

/-- C5: flush-document on a document whose update log is empty returns nothing
and leaves the store exactly as it was, and after any successful flush an
immediately following flush reports nothing-changed on the unchanged store. -/
theorem C5_flush_noop_idempotent (s : Store) (name : Bytes) (oid : Nat)
    (h1 : get_oid s name = some (some oid)) :
    (iterRange (key_update oid 0) (key_update oid (2 ^ 32 - 1)) s = [] →
      flush_doc s name = some (none, s)) ∧
    (∀ d s', flush_doc s name = some (some d, s') →
      flush_doc s' name = some (none, s')) := by
  constructor
  · intro hempty
    unfold flush_doc
    rw [h1]
    show some (flush_doc_inner s oid) = some (none, s)
    rw [flush_inner_of_empty s oid hempty]
  · intro d s' hf
    unfold flush_doc at hf
    rw [h1] at hf
    have hfi : flush_doc_inner s oid = (some d, s') := by
      simpa using hf
    unfold flush_doc_inner at hfi
    by_cases hc : (((load_doc_inner s oid []).2 &&& (2 ^ 31 - 1)) != 0) = true
    · rw [if_pos hc] at hfi
      have hs' : s' = flushedStore s oid := by
        have h2 := congrArg Prod.snd hfi
        simpa [flushedStore] using h2.symm
      have hoid' : get_oid s' name = some (some oid) := by
        rw [hs', get_oid_eq_of_storeGet (storeGet_flushedStore_oidKey s oid name)]
        exact h1
      have hempty' :
          iterRange (key_update oid 0) (key_update oid (2 ^ 32 - 1)) s' = [] := by
        rw [hs']
        unfold flushedStore
        exact iterRange_delete_updates oid _
      unfold flush_doc
      rw [hoid']
      show some (flush_doc_inner s' oid) = some (none, s')
      rw [flush_inner_of_empty s' oid hempty']
    · rw [if_neg hc] at hfi
      have h2 := congrArg Prod.fst hfi
      simp at h2

/-- The store holding one document (owner id 1) with a snapshot and no pending
log entries. -/
def c5s : Store := (insert_doc_raw [] [97] [20] [21]).getD []

/-- C5 witness: the theorem applied to a snapshot-only store. -/
theorem C5_witness :
    get_oid c5s [97] = some (some 1) ∧ flush_doc c5s [97] = some (none, c5s) :=
  ⟨by decide, (C5_flush_noop_idempotent c5s [97] 1 (by decide)).1 (by decide)⟩

/-- C4: flush-document on a document with at least one pending log entry
persists the merged document's encoded state under the snapshot key and its
encoded vector under the state-vector key, empties the whole update-log region,
returns the merged document, and get-clock-vector immediately afterwards
returns exactly the merged document's vector with up-to-date true; the replay
the merged document is built from visits the log entries ascending by key. -/
theorem C4_flush_merges (s : Store) (name : Bytes) (oid : Nat)
    (hs : SortedStore s)
    (h1 : get_oid s name = some (some oid))
    (h2 : iterRange (key_update oid 0) (key_update oid (2 ^ 32 - 1)) s ≠ [])
    (h3 : (iterRange (key_update oid 0) (key_update oid (2 ^ 32 - 1)) s).length
      < 2 ^ 31) :
    flush_doc s name = some (some (load_doc_inner s oid []).1, flushedStore s oid) ∧
    storeGet (flushedStore s oid) (key_doc oid)
      = some (encodeStateAsUpdate (load_doc_inner s oid []).1) ∧
    storeGet (flushedStore s oid) (key_state_vector oid)
      = some (encodeStateVector (load_doc_inner s oid []).1) ∧
    iterRange (key_update oid 0) (key_update oid (2 ^ 32 - 1)) (flushedStore s oid)
      = [] ∧
    get_state_vector (flushedStore s oid) name
      = some (some (encodeStateVector (load_doc_inner s oid []).1), true) ∧
    List.Pairwise (fun a b => bLt a.1 b.1 = true)
      (iterRange (key_update oid 0) (key_update oid (2 ^ 32 - 1)) s) := by
  have hoid' : get_oid (flushedStore s oid) name = some (some oid) := by
    rw [get_oid_eq_of_storeGet (storeGet_flushedStore_oidKey s oid name)]
    exact h1
  have hempty :
      iterRange (key_update oid 0) (key_update oid (2 ^ 32 - 1)) (flushedStore s oid)
        = [] := by
    unfold flushedStore
    exact iterRange_delete_updates oid _
  refine ⟨?_, storeGet_flushedStore_doc s oid, storeGet_flushedStore_sv s oid,
    hempty, ?_, pairwise_filterKeys _ hs⟩
  · unfold flush_doc
    rw [h1]
    show some (flush_doc_inner s oid) = _
    rw [flush_inner_of_nonempty s oid h2 h3]
  · unfold get_state_vector
    rw [hoid']
    show some (storeGet (flushedStore s oid) (key_state_vector oid),
      (iterRange (key_update oid 0) (key_update oid (2 ^ 32 - 1))
        (flushedStore s oid)).isEmpty) = _
    rw [storeGet_flushedStore_sv s oid, hempty]
    rfl

/-- The store of `c5s` after one push: a snapshot plus one pending log entry. -/
def c4s : Store := ((push_update c5s [97] [9]).map Prod.snd).getD []

/-- C4 witness: the theorem applied to a store with a snapshot and one pending
log entry. -/
theorem C4_witness :
    (SortedStore c4s ∧ get_oid c4s [97] = some (some 1) ∧
      iterRange (key_update 1 0) (key_update 1 (2 ^ 32 - 1)) c4s ≠ [] ∧
      (iterRange (key_update 1 0) (key_update 1 (2 ^ 32 - 1)) c4s).length < 2 ^ 31) ∧
    flush_doc c4s [97]
      = some (some (load_doc_inner c4s 1 []).1, flushedStore c4s 1) :=
  ⟨⟨by decide, by decide, by decide, by decide⟩,
    (C4_flush_merges c4s [97] 1 (by decide) (by decide) (by decide) (by decide)).1⟩

theorem docKey_tag_ne (oid : Nat) {a b : Nat} (hab : a ≠ b) (x y : Bytes) :
    docRoot oid ++ a :: x ≠ docRoot oid ++ b :: y := by
  intro h
  have h1 := List.append_cancel_left h
  have h2 := (List.cons.injEq _ _ _ _).mp h1
  exact hab h2.1

theorem key_update_ne_doc (oid c : Nat) : key_update oid c ≠ key_doc oid := by
  have h := docKey_tag_ne oid (show (1 : Nat) ≠ 0 by norm_num)
    (beBytes4 c ++ [0]) ([] : Bytes)
  exact h

theorem key_update_ne_sv (oid c : Nat) : key_update oid c ≠ key_state_vector oid := by
  have h := docKey_tag_ne oid (show (1 : Nat) ≠ 2 by norm_num)
    (beBytes4 c ++ [0]) ([] : Bytes)
  exact h

theorem key_meta_ne_doc (oid : Nat) (mk : Bytes) : key_meta oid mk ≠ key_doc oid := by
  have h := docKey_tag_ne oid (show (3 : Nat) ≠ 0 by norm_num) (mk ++ [0]) ([] : Bytes)
  exact h

theorem key_meta_ne_sv (oid : Nat) (mk : Bytes) :
    key_meta oid mk ≠ key_state_vector oid := by
  have h := docKey_tag_ne oid (show (3 : Nat) ≠ 2 by norm_num) (mk ++ [0]) ([] : Bytes)
  exact h

/-- C8 (amended): insert-document-raw writes only the owner-id key of the name
(when the name was unseen), and the snapshot and clock-vector keys of the
resolved owner id; every other key keeps its value, in particular the resolved
id's update-log and metadata keys.  (The original claim's "all keys of other
documents are left untouched" fails at the name level because, by the C1
allocator collision, a different name can resolve to the same owner id — see
the counterexample.) -/
theorem C8_insert_raw_frame (s : Store) (name ds sv : Bytes) (oid : Nat) (s1 : Store)
    (h : get_or_create_oid s name = some (oid, s1)) :
    insert_doc_raw s name ds sv = some (insert_inner oid ds sv s1) ∧
    storeGet (insert_inner oid ds sv s1) (key_doc oid) = some ds ∧
    storeGet (insert_inner oid ds sv s1) (key_state_vector oid) = some sv ∧
    (∀ k, k ≠ key_doc oid → k ≠ key_state_vector oid → k ≠ key_oid name →
      storeGet (insert_inner oid ds sv s1) k = storeGet s k) ∧
    (∀ clock, storeGet (insert_inner oid ds sv s1) (key_update oid clock)
      = storeGet s (key_update oid clock)) ∧
    (∀ mk, storeGet (insert_inner oid ds sv s1) (key_meta oid mk)
      = storeGet s (key_meta oid mk)) := by
  have hframe1 : ∀ k, k ≠ key_oid name → storeGet s1 k = storeGet s k := by
    intro k hk
    rcases get_or_create_cases h with ⟨_, hs1⟩ | ⟨_, hs1⟩
    · rw [hs1]
    · rw [hs1, storeGet_upsert, if_neg hk]
  have hframe : ∀ k, k ≠ key_doc oid → k ≠ key_state_vector oid →
      k ≠ key_oid name → storeGet (insert_inner oid ds sv s1) k = storeGet s k := by
    intro k hk1 hk2 hk3
    unfold insert_inner
    rw [storeGet_upsert, if_neg hk2, storeGet_upsert, if_neg hk1]
    exact hframe1 k hk3
  refine ⟨?_, ?_, ?_, hframe, ?_, ?_⟩
  · unfold insert_doc_raw
    rw [h]
  · unfold insert_inner
    rw [storeGet_upsert, if_neg (key_doc_ne_sv oid), storeGet_upsert, if_pos rfl]
  · unfold insert_inner
    rw [storeGet_upsert, if_pos rfl]
  · intro clock
    exact hframe _ (key_update_ne_doc oid clock) (key_update_ne_sv oid clock)
      (Ne.symm (key_oid_ne_docKey name oid _))
  · intro mk
    exact hframe _ (key_meta_ne_doc oid mk) (key_meta_ne_sv oid mk)
      (Ne.symm (key_oid_ne_docKey name oid _))

/-- C8 witness: the theorem applied to the empty store and the name [97]. -/
theorem C8_witness :
    get_or_create_oid ([] : Store) [97]
        = some (1, [([0, 0, 97, 0], [0, 0, 0, 1])]) ∧
    insert_doc_raw ([] : Store) [97] [20] [21]
        = some (insert_inner 1 [20] [21] [([0, 0, 97, 0], [0, 0, 0, 1])]) :=
  ⟨by decide,
    (C8_insert_raw_frame [] [97] [20] [21] 1 [([0, 0, 97, 0], [0, 0, 0, 1])]
      (by decide)).1⟩

/-- C9 (amended): when the value stored under a name's owner-id key has width
other than 4 bytes, every operation that decodes it aborts instead of
producing a result; when it is exactly 4 bytes the decode-failure branch is
unreachable and load-document, clear-document, get-meta, get-clock-vector,
iter-meta, remove-meta, flush-document, insert-document-raw and insert-meta
are total.  (The original claim also asserted totality for push-update, which
fails: its clock extraction slices the last five bytes of an arbitrary
predecessor key and can still abort — see the counterexample.) -/
theorem C9_oid_width (s : Store) (name mk : Bytes) (d : DocState)
    (u ds sv meta v : Bytes) (h : storeGet s (key_oid name) = some v) :
    (v.length ≠ 4 →
      get_oid s name = none ∧ load_doc s name d = none ∧ clear_doc s name = none ∧
      push_update s name u = none ∧ get_meta s name mk = none ∧
      get_state_vector s name = none ∧ iter_meta s name = none ∧
      remove_meta s name mk = none ∧ flush_doc s name = none ∧
      insert_doc_raw s name ds sv = none ∧ insert_meta s name mk meta = none) ∧
    (v.length = 4 →
      (load_doc s name d).isSome ∧ (clear_doc s name).isSome ∧
      (get_meta s name mk).isSome ∧ (get_state_vector s name).isSome ∧
      (iter_meta s name).isSome ∧ (remove_meta s name mk).isSome ∧
      (flush_doc s name).isSome ∧ (insert_doc_raw s name ds sv).isSome ∧
      (insert_meta s name mk meta).isSome) := by
  constructor
  · intro hW
    have hdo : decodeOid v = none := by
      unfold decodeOid
      rw [if_neg hW]
    have hgo : get_oid s name = none := by
      simp [get_oid, h, hdo]
    refine ⟨hgo, ?_, ?_, ?_, ?_, ?_, ?_, ?_, ?_, ?_, ?_⟩
    · unfold load_doc
      rw [hgo]
    · simp [clear_doc, h, hdo]
    · simp [push_update, get_or_create_oid, hgo]
    · unfold get_meta
      rw [hgo]
    · unfold get_state_vector
      rw [hgo]
    · unfold iter_meta
      rw [hgo]
    · unfold remove_meta
      rw [hgo]
    · unfold flush_doc
      rw [hgo]
    · simp [insert_doc_raw, get_or_create_oid, hgo]
    · simp [insert_meta, get_or_create_oid, hgo]
  · intro h4
    have hdo : decodeOid v = some (beVal v) := by
      unfold decodeOid
      rw [if_pos h4]
    have hgo : get_oid s name = some (some (beVal v)) := by
      simp [get_oid, h, hdo]
    refine ⟨?_, ?_, ?_, ?_, ?_, ?_, ?_, ?_, ?_⟩
    · simp [load_doc, hgo]
    · simp [clear_doc, h, hdo]
    · simp [get_meta, hgo]
    · simp [get_state_vector, hgo]
    · simp [iter_meta, hgo]
    · simp [remove_meta, hgo]
    · simp [flush_doc, hgo]
    · simp [insert_doc_raw, get_or_create_oid, hgo]
    · simp [insert_meta, get_or_create_oid, hgo]

/-- C9 witness: the theorem applied to a store whose owner-id value for [97]
has 3 bytes; every listed operation aborts. -/
theorem C9_witness :
    storeGet [([0, 0, 97, 0], [0, 0, 1])] (key_oid [97]) = some [0, 0, 1] ∧
    (([0, 0, 1] : Bytes).length ≠ 4 ∧
      get_oid [([0, 0, 97, 0], [0, 0, 1])] [97] = none ∧
      load_doc [([0, 0, 97, 0], [0, 0, 1])] [97] [] = none ∧
      clear_doc [([0, 0, 97, 0], [0, 0, 1])] [97] = none ∧
      push_update [([0, 0, 97, 0], [0, 0, 1])] [97] [9] = none) :=
  ⟨by decide,
    by
      have hmain := (C9_oid_width [([0, 0, 97, 0], [0, 0, 1])] [97] [5] [] [9]
        [20] [21] [6] [0, 0, 1] (by decide)).1 (by decide)
      exact ⟨by decide, hmain.1, hmain.2.1, hmain.2.2.1, hmain.2.2.2.1⟩⟩

theorem inRange_region_oidKey (oid : Nat) (n : Bytes) :
    inRange (key_doc_start oid) (key_doc_end oid) (key_oid n) = false :=
  inRange_docKeys_oidKey oid [0] [255] n

/-- C6 (amended): clear-document removes the name's id mapping and every key in
the owner id's scoped region; afterwards load-document, get-clock-vector and
iter-meta on that name answer as for a never-used name, iter-docs omits the
name (given that the OID keyspace holds only well-formed OID keys), the id
mapping of every other name keeps its value, and every key scoped under a
different owner id keeps its value.  (The original claim's "every other
document's scoped keys are unchanged" fails when another name shares the owner
id through the C1 allocator collision — see the counterexample.) -/
theorem C6_clear_doc (s : Store) (name v : Bytes) (d : DocState)
    (h : storeGet s (key_oid name) = some v) (h4 : v.length = 4) :
    clear_doc s name = some (clearedStore s name (beVal v)) ∧
    storeGet (clearedStore s name (beVal v)) (key_oid name) = none ∧
    (∀ k, inRange (key_doc_start (beVal v)) (key_doc_end (beVal v)) k = true →
      storeGet (clearedStore s name (beVal v)) k = none) ∧
    load_doc (clearedStore s name (beVal v)) name d = some (false, d) ∧
    get_state_vector (clearedStore s name (beVal v)) name = some (none, true) ∧
    iter_meta (clearedStore s name (beVal v)) name = some [] ∧
    ((∀ e ∈ s, inRange [0, 0] [0, 1] e.1 = true → e.1 = key_oid (doc_oid_name e.1)) →
      name ∉ iter_docs (clearedStore s name (beVal v))) ∧
    (∀ n, n ≠ name → storeGet (clearedStore s name (beVal v)) (key_oid n)
      = storeGet s (key_oid n)) ∧
    (∀ oid', oid' < 2 ^ 32 → beVal v < 2 ^ 32 → oid' ≠ beVal v →
      ∀ k, inRange (key_doc_start oid') (key_doc_end oid') k = true →
        storeGet (clearedStore s name (beVal v)) k = storeGet s k) := by
  have hnone : storeGet (clearedStore s name (beVal v)) (key_oid name) = none := by
    unfold clearedStore removeRange removeKey
    rw [storeGet_filterKeys, inRange_region_oidKey]
    simp [storeGet_filterKeys]
  have hno : get_oid (clearedStore s name (beVal v)) name = some none :=
    get_oid_of_storeGet_none hnone
  refine ⟨clear_doc_eq s name v h h4, hnone, ?_, ?_, ?_, ?_, ?_, ?_, ?_⟩
  · intro k hk
    unfold clearedStore removeRange
    rw [storeGet_filterKeys, hk]
    rfl
  · unfold load_doc
    rw [hno]
  · unfold get_state_vector
    rw [hno]
  · unfold iter_meta
    rw [hno]
  · intro hwf hmem
    unfold iter_docs iterRange at hmem
    rcases List.mem_map.mp hmem with ⟨e, he, hname⟩
    have he1 := (mem_filterKeys_iff _ _ e).mp he
    have he2 := (mem_filterKeys_iff _ _ e).mp
      (show e ∈ filterKeys
          (fun k => !(inRange (key_doc_start (beVal v)) (key_doc_end (beVal v)) k))
          (filterKeys (fun j => !(decide (j = key_oid name))) s) from he1.1)
    have he3 := (mem_filterKeys_iff _ _ e).mp he2.1
    have hkey := hwf e he3.1 he1.2
    rw [hname] at hkey
    have hcontra := he3.2
    rw [hkey] at hcontra
    simp at hcontra
  · intro n hn
    have hne : ¬(key_oid n = key_oid name) := fun hh => hn (key_oid_inj hh)
    unfold clearedStore removeRange removeKey
    rw [storeGet_filterKeys, inRange_region_oidKey]
    simp [storeGet_filterKeys, hne]
  · intro oid' h32' h32 hne k hk
    have hroot : docRoot oid' ≠ docRoot (beVal v) :=
      fun hh => hne (docRoot_inj h32' h32 hh)
    have hdisj : inRange (key_doc_start (beVal v)) (key_doc_end (beVal v)) k
        = false := region_disjoint hroot hk
    have hkne : ¬(k = key_oid name) := by
      intro hh
      rw [hh, inRange_region_oidKey] at hk
      simp at hk
    unfold clearedStore removeRange removeKey
    rw [storeGet_filterKeys, hdisj]
    simp [storeGet_filterKeys, hkne]

/-- A store holding two documents with distinct owner ids 1 and 2, each with
one metadata entry. -/
def c6s : Store := ((insert_meta ([] : Store) [97] [5] [6]).bind
  (fun s1 => insert_meta s1 [98] [7] [8])).getD []

/-- C6 witness: the theorem applied to a two-document store, clearing [97]. -/
theorem C6_witness :
    storeGet c6s (key_oid [97]) = some [0, 0, 0, 1] ∧
    clear_doc c6s [97] = some (clearedStore c6s [97] (beVal [0, 0, 0, 1])) :=
  ⟨by decide, (C6_clear_doc c6s [97] [0, 0, 0, 1] [] (by decide) (by decide)).1⟩

end YrsKv
